import Mathlib

/-!
# go-server: hive routing and proxy rewriting

A shallow embedding of `server.go`: the configuration model, the proxy
handlers' destination rewrite, the route table compiled in `main`, and the
header middleware.  Go strings are modelled as lists of characters (one list
element per code point; every string the program inspects is compared and
searched element-wise, exactly as Go does byte-wise on valid UTF-8).
-/

set_option autoImplicit false
set_option linter.dupNamespace false

namespace GoServer

/-- A Go `string`. -/
abbrev GoString := List Char

/-! ## Configuration model (`server.go`, lines 20-44) -/

/-- The Go struct `Hive`. -/
structure Hive where
  Path : GoString
  Hive : GoString
  Host : GoString
  Route : GoString
  Java : Bool
  deriving DecidableEq, Repr

/-- The Go struct `Hives`. -/
structure Hives where
  LocalHives : List Hive
  RemoteHives : List Hive
  CriticalHives : List Hive
  deriving DecidableEq, Repr

/-- The Go struct `Server`. -/
structure Server where
  HTTPS : Bool
  Name : GoString
  Host : GoString
  Port : GoString
  Hives : Hives
  deriving DecidableEq, Repr

/-! ## The `strings` functions the handlers call -/

/-- Scan of `strings.Index`: the position, counted from `i`, of the first
suffix of the text that begins with `substr`, or `-1`. -/
def indexFrom (substr : GoString) : GoString → Nat → Int
  | [], i => if substr = [] then (i : Int) else -1
  | c :: t, i => if substr.isPrefixOf (c :: t) then (i : Int) else indexFrom substr t (i + 1)

/-- Go `strings.Index(s, substr)`: index of the first instance of `substr`
in `s`, or `-1` if `substr` is not present. -/
def Index (s substr : GoString) : Int := indexFrom substr s 0

/-- The loop of `strings.Count` for a non-empty `substr`: repeatedly find the
next instance and continue after it. -/
def countLoop (substr : GoString) : Nat → GoString → Nat
  | 0, _ => 0
  | fuel + 1, s =>
    let i := Index s substr
    if i = -1 then 0
    else 1 + countLoop substr fuel (s.drop (i.toNat + substr.length))

/-- Go `strings.Count(s, substr)`: the number of non-overlapping instances;
for an empty `substr`, one more than the number of code points. -/
def Count (s substr : GoString) : Nat :=
  if substr = [] then s.length + 1 else countLoop substr (s.length + 1) s

/-- The replacement loop of `strings.Replace`: `k` replacements remain,
`first` says whether this is iteration `i = 0`, and the list is `s[start:]`. -/
def replaceLoop (old new : GoString) : Nat → Bool → GoString → GoString
  | 0, _, rest => rest
  | k + 1, first, rest =>
    if old = [] then
      if first then new ++ replaceLoop old new k false rest
      else
        match rest with
        | [] => new ++ replaceLoop old new k false []
        | c :: t => c :: (new ++ replaceLoop old new k false t)
    else
      let j := (Index rest old).toNat
      rest.take j ++ (new ++ replaceLoop old new k false (rest.drop (j + old.length)))

/-- Go `strings.Replace(s, old, new, n)`. -/
def Replace (s old new : GoString) (n : Int) : GoString :=
  if old = new ∨ n = 0 then s
  else
    let m : Int := (Count s old : Nat)
    if m = 0 then s
    else
      let n := if n < 0 ∨ m < n then m else n
      replaceLoop old new n.toNat true s

/-! ## Proxy hive handler: destination rewrite (lines 304-316 and 424-436) -/

/-- The forwarding origin: `baseurl := server.Host; if hive.Host != "" { baseurl = hive.Host }`. -/
def baseurl (server : Server) (hive : Hive) : GoString :=
  if hive.Host ≠ [] then hive.Host else server.Host

/-- The string handed to `url.Parse` by the critical and the remote hive
handler (the two closures are textually identical up to this point). -/
def destinationURL (server : Server) (hive : Hive) (requestURI : GoString) : GoString :=
  let destinationURL := baseurl server hive ++ requestURI
  if hive.Route ≠ [] then Replace destinationURL hive.Path hive.Route 1
  else destinationURL

/-! ## Lower-casing -/

/-- Go `unicode.ToLower`: the ASCII range is handled inline
(`if 'A' <= r && r <= 'Z' { r += 'a' - 'A' }`), every other code point goes
through the Unicode case tables, which are taken as the parameter `table`. -/
def unicodeToLower (table : Char → Char) (r : Char) : Char :=
  if r.toNat ≤ 127 then
    (if 'A'.toNat ≤ r.toNat ∧ r.toNat ≤ 'Z'.toNat then Char.ofNat (r.toNat + 32) else r)
  else table r

/-- Go `strings.ToLower`: every code point mapped through `unicode.ToLower`. -/
def ToLower (table : Char → Char) (s : GoString) : GoString :=
  s.map (unicodeToLower table)

/-! ## `http.Header` -/

/-- Go `http.Header`, a `map[string][]string`: `none` is an absent key. -/
abbrev Header := GoString → Option (List GoString)

/-- The empty header map of a fresh `ResponseWriter`. -/
def Header.empty : Header := fun _ => none

/-- Go `Header.Add(key, value)` for a key already in canonical form (every
key `server.go` writes to the response is): append to the key's values. -/
def Header.Add (h : Header) (key value : GoString) : Header :=
  fun k => if k = key then some ((h k).getD [] ++ [value]) else h k

/-- Go `Header.Set(key, value)` for a key already in canonical form: replace
the key's values by the single `value`. -/
def Header.Set (h : Header) (key value : GoString) : Header :=
  fun k => if k = key then some [value] else h k

/-- The helper `copyHeader(dst, src)` of `net/http/httputil`: every value of
every key of `src` is `Add`ed to `dst` (a key with no values adds nothing). -/
def copyHeader (dst src : Header) : Header :=
  fun k =>
    match src k with
    | some (v :: vs) => some ((dst k).getD [] ++ v :: vs)
    | _ => dst k

/-! ## `net/url` -/

/-- Go `url.URL`. The fields `User`, `Fragment`, `RawFragment` and
`OmitHost` are left out: URLs with user information or a fragment are
outside the modelled fragment of `url.Parse`, and nothing reads `OmitHost`. -/
structure URL where
  Scheme : GoString := []
  Opaque : GoString := []
  Host : GoString := []
  Path : GoString := []
  RawPath : GoString := []
  ForceQuery : Bool := false
  RawQuery : GoString := []
  deriving DecidableEq, Repr

/-- Result of the model of `url.Parse`: a URL, the error Go reports, or an
input using a feature the model leaves out (user information, a bracketed
IPv6 host, a percent escape, a fragment). -/
inductive Parsed where
  | url (u : URL)
  | err
  | unmodelled
  deriving DecidableEq, Repr

/-- Go `stringContainsCTLByte`: an ASCII control character occurs. -/
def stringContainsCTLByte (s : GoString) : Bool :=
  s.any (fun c => decide (c.toNat < 32 ∨ c.toNat = 127))

/-- ASCII letter test used by `getScheme` and `shouldEscape`. -/
def isAsciiLetter (c : Char) : Bool :=
  decide (('a'.toNat ≤ c.toNat ∧ c.toNat ≤ 'z'.toNat) ∨ ('A'.toNat ≤ c.toNat ∧ c.toNat ≤ 'Z'.toNat))

/-- ASCII digit test used by `getScheme` and `shouldEscape`. -/
def isAsciiDigit (c : Char) : Bool :=
  decide ('0'.toNat ≤ c.toNat ∧ c.toNat ≤ '9'.toNat)

/-- Loop of Go `getScheme`: `seen` holds `rawURL[:i]` reversed, the list is
`rawURL[i:]`.  `none` is the error "missing protocol scheme". -/
def getSchemeFrom (rawURL : GoString) : GoString → GoString → Option (GoString × GoString)
  | _, [] => some ([], rawURL)
  | seen, c :: t =>
    if isAsciiLetter c then getSchemeFrom rawURL (c :: seen) t
    else if isAsciiDigit c ∨ c = '+' ∨ c = '-' ∨ c = '.' then
      (if seen = [] then some ([], rawURL) else getSchemeFrom rawURL (c :: seen) t)
    else if c = ':' then
      (if seen = [] then none else some (seen.reverse, t))
    else some ([], rawURL)

/-- Go `getScheme(rawURL)`: `(scheme, rest)`. -/
def getScheme (rawURL : GoString) : Option (GoString × GoString) :=
  getSchemeFrom rawURL [] rawURL

/-- Go `strings.Cut(s, sep)` for a one-character separator: the text before
and after the first `sep` (all of `s` and the empty string when there is none). -/
def Cut (s : GoString) (sep : Char) : GoString × GoString :=
  (s.takeWhile (fun c => c != sep), (s.dropWhile (fun c => c != sep)).drop 1)

/-- Go `shouldEscape(c, encodePath)`: letters, digits, `-_.~` and the
reserved characters other than `?` stay as they are in a path. -/
def shouldEscapePath (c : Char) : Bool :=
  !(isAsciiLetter c || isAsciiDigit c || "-_.~$&+,/:;=@".toList.contains c)

/-- Go `shouldEscape(c, encodeHost)`. -/
def shouldEscapeHost (c : Char) : Bool :=
  !(isAsciiLetter c || isAsciiDigit c || "!$&'()*+,;=:[]<>\"-_.~".toList.contains c)

/-- Go `validOptionalPort(port)`: empty, or a colon followed by digits. -/
def validOptionalPort (port : GoString) : Bool :=
  match port with
  | [] => true
  | c :: ds => c == ':' && ds.all isAsciiDigit

/-- Go `parseHost` on a host with neither brackets nor percent escapes: the
text from the last colon on must be a valid port and no ASCII character may
need escaping. `none` is Go's error. -/
def parseHost (host : GoString) : Option GoString :=
  let colonPort := ':' :: (host.reverse.takeWhile (fun c => c != ':')).reverse
  if host.contains ':' ∧ validOptionalPort colonPort = false then none
  else if host.any (fun c => decide (c.toNat < 128) && shouldEscapeHost c) then none
  else some host

/-- Go `(*URL).setPath(p)` on a path without percent escapes: `Path` is `p`,
and `RawPath` is left empty when the default escaping of `p` is `p` itself. -/
def setPath (u : URL) (p : GoString) : URL :=
  { u with Path := p, RawPath := if p.any shouldEscapePath then p else [] }

/-- Go `url.parse(rawURL, viaRequest)`, the function behind `url.Parse`
(`viaRequest = false`) and `url.ParseRequestURI` (`viaRequest = true`). -/
def parse (rawURL : GoString) (viaRequest : Bool) : Parsed :=
  if stringContainsCTLByte rawURL then .err
  else if rawURL = [] ∧ viaRequest = true then .err
  else if rawURL = ['*'] then .url { Path := ['*'] }
  else
    match getScheme rawURL with
    | none => .err
    | some (scheme, rest) =>
      let scheme := scheme.map Char.toLower
      let force := decide (rest.getLast? = some '?' ∧ rest.count '?' = 1)
      let rawQuery := if force then [] else (Cut rest '?').2
      let rest := if force then rest.dropLast else (Cut rest '?').1
      let u : URL := { Scheme := scheme, ForceQuery := force, RawQuery := rawQuery }
      if rest.head? ≠ some '/' ∧ scheme ≠ [] then .url { u with Opaque := rest }
      else if rest.head? ≠ some '/' ∧ viaRequest = true then .err
      else if rest.head? ≠ some '/' ∧ (Cut rest '/').1.contains ':' then .err
      else if rest.contains '%' then .unmodelled
      else if (scheme ≠ [] ∨ (viaRequest = false ∧ ¬ "///".toList.isPrefixOf rest))
          ∧ "//".toList.isPrefixOf rest then
        let authority := (rest.drop 2).takeWhile (fun c => c != '/')
        let rest := (rest.drop 2).dropWhile (fun c => c != '/')
        if authority.contains '@' ∨ authority.contains '[' then .unmodelled
        else
          match parseHost authority with
          | none => .err
          | some host => .url (setPath { u with Host := host } rest)
      else .url (setPath u rest)

/-- Go `url.Parse(rawURL)`: the fragment is cut off first; a URL with a
fragment is outside the modelled part. -/
def Parse (rawURL : GoString) : Parsed :=
  if rawURL.contains '#' then .unmodelled else parse rawURL false

/-- Go `url.ParseRequestURI(rawURL)`, used by the HTTP server on the request line. -/
def ParseRequestURI (rawURL : GoString) : Parsed :=
  parse rawURL true

/-! ## `path/filepath` and `os.ExpandEnv` (Unix) -/

/-- Go `strings.Split(s, "/")`. -/
def splitSlash : GoString → List GoString
  | [] => [[]]
  | c :: t =>
    if c = '/' then [] :: splitSlash t
    else
      match splitSlash t with
      | [] => [[c]]
      | e :: es => (c :: e) :: es

/-- One element of the scan of `filepath.Clean`: empty and `.` elements are
dropped, `..` removes the element before it (or is kept, in a path that is
not rooted and has nothing left to remove), any other element is appended. -/
def cleanStep (rooted : Bool) (out : List GoString) (e : GoString) : List GoString :=
  if e = [] ∨ e = ['.'] then out
  else if e = ['.', '.'] then
    match out.getLast? with
    | some l => if l = ['.', '.'] then out ++ [e] else out.dropLast
    | none => if rooted then out else [e]
  else out ++ [e]

/-- Go `filepath.Clean` (and `path.Clean`) on Unix, element by element. -/
def Clean (path : GoString) : GoString :=
  if path = [] then ['.']
  else
    let rooted := decide (path.head? = some '/')
    let body := ['/'].intercalate ((splitSlash path).foldl (cleanStep rooted) [])
    if rooted then '/' :: body else if body = [] then ['.'] else body

/-- Go `filepath.Join(a, b)`: the non-empty elements joined by `/`, cleaned. -/
def Join (a b : GoString) : GoString :=
  if a ≠ [] then Clean (a ++ '/' :: b) else if b ≠ [] then Clean b else []

/-- Go `filepath.Abs(path)` on Unix, `wd` being the result of `os.Getwd()`. -/
def Abs (wd path : GoString) : GoString :=
  if path.head? = some '/' then Clean path else Join wd path

/-- Go `isShellSpecialVar`. -/
def isShellSpecialVar (c : Char) : Bool :=
  "*#$@!?-0123456789".toList.contains c

/-- Go `isAlphaNum` of package `os`. -/
def isAlphaNum (c : Char) : Bool :=
  c == '_' || isAsciiDigit c || isAsciiLetter c

/-- Go `getShellName(s)`: the variable name that starts `s` and how many
characters it takes up. -/
def getShellName (s : GoString) : GoString × Nat :=
  match s with
  | [] => ([], 0)
  | c :: t =>
    if c = '{' then
      if (match t with
          | c1 :: c2 :: _ => isShellSpecialVar c1 && c2 == '}'
          | _ => false) then (t.take 1, 3)
      else if t.contains '}' then
        (if t.takeWhile (fun x => x != '}') = [] then ([], 2)
         else (t.takeWhile (fun x => x != '}'), (t.takeWhile (fun x => x != '}')).length + 2))
      else ([], 1)
    else if isShellSpecialVar c then ([c], 1)
    else (s.takeWhile isAlphaNum, (s.takeWhile isAlphaNum).length)

/-- The loop of Go `os.Expand(s, mapping)`. -/
def expandLoop (mapping : GoString → GoString) : Nat → GoString → GoString
  | 0, s => s
  | _ + 1, [] => []
  | fuel + 1, c :: t =>
    if c = '$' ∧ t ≠ [] then
      let nw := getShellName t
      (if nw.1 = [] ∧ 0 < nw.2 then []
        else if nw.1 = [] then ['$'] else mapping nw.1)
        ++ expandLoop mapping fuel (t.drop nw.2)
    else c :: expandLoop mapping fuel t

/-- Go `os.ExpandEnv(s)`, `getenv` being the process environment. -/
def ExpandEnv (getenv : GoString → GoString) (s : GoString) : GoString :=
  expandLoop getenv s.length s

/-- The name `http.Dir(root).Open(name)` opens:
`filepath.Join(root, path.Clean("/" + name))`, an empty root standing for `.`. -/
def dirOpen (root name : GoString) : GoString :=
  Join (if root = [] then ['.'] else root) (Clean ('/' :: name))

/-! ## Requests, responses and the external collaborators -/

/-- Go `http.Request`: the fields the program and its libraries consult. -/
structure Request where
  Method : GoString
  RequestURI : GoString
  URL : URL
  Host : GoString
  Header : Header

/-- How the HTTP server builds the request of a request line that is not a
`CONNECT`: `RequestURI` is the raw target, `URL` its `url.ParseRequestURI`.
`none` is a request refused with status 400 before any handler runs (or a
target outside the modelled fragment of the parser). -/
def readRequest (method requestURI host : GoString) (header : Header) : Option Request :=
  match ParseRequestURI requestURI with
  | .url u => some { Method := method, RequestURI := requestURI, URL := u,
                     Host := host, Header := header }
  | _ => none

/-- What a leaf handler did with a request. -/
inductive Outcome where
  /-- The reverse proxy sent the request on with this URL and `Host`. -/
  | forwarded (url : URL) (host : GoString)
  /-- A file server opened this name under its root. -/
  | file (name : GoString)
  /-- The `404 page not found` reply of `http.NotFound`. -/
  | notFound
  /-- The process ended in `log.Fatalln`. -/
  | fatal
  /-- The destination is outside the modelled fragment of `url.Parse`. -/
  | unmodelled
  deriving DecidableEq, Repr

/-- The observable result of serving one request: the response header map
and what the leaf handler did. -/
structure Response where
  Header : Header
  Outcome : Outcome

/-- Go `http.Handler`: from the header map of the `ResponseWriter` so far and
the request to the response. -/
abbrev Handler := Header → Request → Response

/-- Everything outside the program that its behaviour depends on. -/
structure World where
  /-- The Unicode lower-case mapping of non-ASCII code points. -/
  lowerTable : Char → Char
  /-- The process environment, `os.Getenv`. -/
  getenv : GoString → GoString
  /-- The working directory, `os.Getwd()`. -/
  wd : GoString
  /-- Response headers written by `httpgzip.FileServer(http.Dir(root), _)`. -/
  httpgzipFileServer : GoString → Header → Request → Header
  /-- Response headers written by `http.FileServer(http.Dir(root))`. -/
  httpFileServer : GoString → Header → Request → Header
  /-- Header of the upstream response to the request sent to this URL and
  `Host` (hop-by-hop headers already removed by the reverse proxy). -/
  roundTrip : URL → GoString → Header

/-- The command-line flags read by the handlers, and the base directory. -/
structure Flags where
  verbosePtr : Bool
  cachePtr : Bool
  caseFlag : Bool
  basePath : GoString

/-! ## Middleware (lines 87-174) -/

/-- Go `http.NotFound` / `http.Error`: the 404 reply. -/
def NotFound : Handler := fun w _ =>
  { Header := (w.Set "Content-Type".toList "text/plain; charset=utf-8".toList).Set
      "X-Content-Type-Options".toList "nosniff".toList,
    Outcome := .notFound }

/-- Go `changeHeaderThenServe(h, verbose, caching)`; the verbose dump goes to
the console and is not part of the response. -/
def changeHeaderThenServe (h : Handler) (_verbose caching : Bool) : Handler := fun w r =>
  let headers :=
    if !caching then w.Add "Cache-Control".toList "no-store".toList
    else w.Add "Cache-Control".toList "max-age=3600".toList
  let headers := headers.Add "Service-Worker-Allowed".toList "/".toList
  h headers r

/-- The assignment `r.URL.Path = strings.ToLower(r.URL.Path)` of `caselessMatcher`. -/
def lowerCasePath (W : World) (r : Request) : Request :=
  { r with URL := { r.URL with Path := ToLower W.lowerTable r.URL.Path } }

/-- Go `caselessMatcher(next)`: lower-case the path, then `next.ServeHTTP(w, r)`. -/
def caselessMatcher (W : World) (next : Handler) : Handler := fun w r =>
  next w (lowerCasePath W r)

/-- Go `upgradeInsecure(next)`; `Header.Add` stores the key in canonical form. -/
def upgradeInsecure (next : Handler) : Handler := fun w r =>
  next (w.Add "Content-Security-Policy".toList "upgrade-insecure-requests".toList) r

/-- Go `correct_MIME_TYPE(next)`: the header is written before `next` runs. -/
def correct_MIME_TYPE (next : Handler) : Handler := fun w r =>
  if Index r.URL.Path ".js".toList > 0 then
    (if (w "Content-Type".toList).isSome then
      next (w.Set "Content-Type".toList "application/javascript;charset=utf-8".toList) r
    else
      next (w.Add "Content-Type".toList "application/javascript;charset=utf-8".toList) r)
  else next w r

/-- Go `http.StripPrefix(strip, h)`. -/
def StripPrefix (strip : GoString) (h : Handler) : Handler :=
  if strip = [] then h
  else fun w r =>
    let p := if strip.isPrefixOf r.URL.Path then r.URL.Path.drop strip.length else r.URL.Path
    let rp := if strip.isPrefixOf r.URL.RawPath then r.URL.RawPath.drop strip.length
      else r.URL.RawPath
    if p.length < r.URL.Path.length ∧ (r.URL.RawPath = [] ∨ rp.length < r.URL.RawPath.length) then
      h w { r with URL := { r.URL with Path := p, RawPath := rp } }
    else NotFound w r

/-! ## Proxy hive handler: forwarding (lines 318-385 and 438-507) -/

/-- The `Director` closure of the reverse proxy, on the URL and `Host` of the
outgoing request (`target` is the parsed destination, `targetQuery` its
`RawQuery`). -/
def Director (target : URL) (req : Request) : Request :=
  { req with
    URL := { req.URL with
      Scheme := target.Scheme
      Host := target.Host
      Path := target.Path
      RawPath := target.RawPath
      RawQuery :=
        if target.RawQuery = [] ∨ req.URL.RawQuery = [] then target.RawQuery ++ req.URL.RawQuery
        else target.RawQuery }
    Host := target.Host
    Header :=
      if (req.Header "User-Agent".toList).isSome then req.Header
      else req.Header.Set "User-Agent".toList [] }

/-- The `ModifyResponse` closure: `if *cachePtr { r.Header.Set("Cache-Control", "max-age=3600") }`. -/
def ModifyResponse (cachePtr : Bool) (r : Header) : Header :=
  if cachePtr then r.Set "Cache-Control".toList "max-age=3600".toList else r

/-- The handler registered for a critical and for a remote hive: build the
destination, parse it, and let `httputil.ReverseProxy` forward the request
(`Director` on the outgoing request, `ModifyResponse` on the upstream
response, whose header is then copied to the `ResponseWriter`). -/
def proxyHandler (W : World) (fl : Flags) (server : Server) (hive : Hive) : Handler :=
  fun writer request =>
    match Parse (destinationURL server hive request.RequestURI) with
    | .err => { Header := writer, Outcome := .fatal }
    | .unmodelled => { Header := writer, Outcome := .unmodelled }
    | .url target =>
      let req := Director target request
      { Header := copyHeader writer (ModifyResponse fl.cachePtr (W.roundTrip req.URL req.Host)),
        Outcome := .forwarded req.URL req.Host }

/-! ## Local hive handler (lines 389-416) -/

/-- The directory `path` a local hive is served from. -/
def localHiveDir (W : World) (fl : Flags) (hive : Hive) : GoString :=
  if hive.Path ≠ [] ∧ hive.Path.head? = some '.' then
    Abs W.wd (ExpandEnv W.getenv (fl.basePath ++ hive.Path))
  else Abs W.wd (ExpandEnv W.getenv hive.Path)

/-- The registered route template of a local hive: `hivePath := strings.ToLower(hive.Hive)`. -/
def hivePath (W : World) (hive : Hive) : GoString :=
  ToLower W.lowerTable hive.Hive

/-- `serveHive`: the compressing file server over the hive directory; it
opens the request path under that directory. -/
def serveHive (W : World) (fl : Flags) (hive : Hive) : Handler := fun w r =>
  { Header := W.httpgzipFileServer (localHiveDir W fl hive) w r,
    Outcome := .file (dirOpen (localHiveDir W fl hive) r.URL.Path) }

/-- The handler registered for a local hive. -/
def localHandler (W : World) (fl : Flags) (hive : Hive) : Handler :=
  StripPrefix (hivePath W hive)
    (changeHeaderThenServe (serveHive W fl hive) fl.verbosePtr fl.cachePtr)

/-- `serveBase := http.FileServer(http.Dir(basePath))`. -/
def serveBase (W : World) (fl : Flags) : Handler := fun w r =>
  { Header := W.httpFileServer fl.basePath w r,
    Outcome := .file (dirOpen fl.basePath r.URL.Path) }

/-! ## Route compiler and router (lines 294-302, 389-422, 511-522)

`gorilla/mux` keeps the routes in registration order and dispatches a request
to the first route whose matcher accepts the request path.  A hive template
is taken literally (no `{name}` variable in it).  The redirect that
`http.ServeMux` and `mux` answer to a path that is not in clean form comes
before any route is consulted and is left out. -/

/-- Which registration a route comes from; the index is the position of the
hive in its list. -/
inductive RouteId where
  | critical (i : Nat)
  | localHive (i : Nat)
  | remote (i : Nat)
  | catchAll
  deriving DecidableEq, Repr

/-- Matcher of `router.PathPrefix(tpl)`: the request path begins with `tpl`.
A non-empty template that does not begin with `/` is refused by `mux`
("path must start with a slash") and its route never matches. -/
def PathPrefixMatch (tpl path : GoString) : Bool :=
  (tpl.isEmpty || tpl.head? == some '/') && tpl.isPrefixOf path

/-- Matcher of `router.Handle("/{path:.*}", _)`: `mux` compiles the template
to the regular expression `^/(?P<v0>.*)$`, in which `.` stands for any
character other than a line feed. -/
def catchAllMatch (path : GoString) : Bool :=
  match path with
  | c :: rest => c == '/' && !rest.contains '\n'
  | [] => false

/-- One entry of the router. -/
structure Route where
  id : RouteId
  accepts : GoString → Bool
  handler : Handler

/-- The route registered for critical hive number `ih.1`. -/
def criticalRoute (W : World) (fl : Flags) (server : Server) (ih : Nat × Hive) : Route :=
  { id := .critical ih.1, accepts := PathPrefixMatch ih.2.Path,
    handler := proxyHandler W fl server ih.2 }

/-- The route registered for local hive number `ih.1`. -/
def localRoute (W : World) (fl : Flags) (ih : Nat × Hive) : Route :=
  { id := .localHive ih.1, accepts := PathPrefixMatch (hivePath W ih.2),
    handler := localHandler W fl ih.2 }

/-- The route registered for remote hive number `ih.1`. -/
def remoteRoute (W : World) (fl : Flags) (server : Server) (ih : Nat × Hive) : Route :=
  { id := .remote ih.1, accepts := PathPrefixMatch ih.2.Path,
    handler := proxyHandler W fl server ih.2 }

/-- The routes `main` registers, in registration order: the critical hives,
the local hives, the remote hives, the catch-all. -/
def routes (W : World) (fl : Flags) (server : Server) : List Route :=
  server.Hives.CriticalHives.enum.map (criticalRoute W fl server)
  ++ server.Hives.LocalHives.enum.map (localRoute W fl)
  ++ server.Hives.RemoteHives.enum.map (remoteRoute W fl server)
  ++ [{ id := .catchAll, accepts := catchAllMatch, handler := serveBase W fl }]

/-- `mux.Router.Match`: the first registered route accepting the path. -/
def routerMatch (rs : List Route) (path : GoString) : Option Route :=
  rs.find? fun rt => rt.accepts path

/-- The route a request path is dispatched to by the compiled router. -/
def dispatch (W : World) (fl : Flags) (server : Server) (path : GoString) : Option RouteId :=
  (routerMatch (routes W fl server) path).map fun rt => rt.id

/-- `mux.Router.ServeHTTP` with `router.Use(correct_MIME_TYPE)`: the matched
handler runs inside the middleware; without a match the router replies 404. -/
def router (W : World) (fl : Flags) (server : Server) : Handler := fun w r =>
  match routerMatch (routes W fl server) r.URL.Path with
  | some rt => correct_MIME_TYPE rt.handler w r
  | none => NotFound w r

/-- The `handler` mounted at `/`: `if !*caseFlag { caselessMatcher(router) } else { router }`. -/
def handler (W : World) (fl : Flags) (server : Server) : Handler :=
  if !fl.caseFlag then caselessMatcher W (router W fl server) else router W fl server

/-- The path the router matches on for a request path, given the `-c` flag. -/
def routedPath (W : World) (fl : Flags) (path : GoString) : GoString :=
  if !fl.caseFlag then ToLower W.lowerTable path else path

/-- The route the mounted handler dispatches a request path to. -/
def routeOf (W : World) (fl : Flags) (server : Server) (path : GoString) : Option RouteId :=
  dispatch W fl server (routedPath W fl path)

/-- Hive number `i` of the list `hs` exists and the template registered for
it (`tpl`) accepts the path. -/
def AcceptsAt (tpl : Hive → GoString) (hs : List Hive) (path : GoString) (i : Nat) : Prop :=
  ∃ h, hs[i]? = some h ∧ PathPrefixMatch (tpl h) path = true

/-! ## Sample data -/

/-- A world with an empty environment, identity case tables, file servers
that write no header, and an upstream that answers with an empty header. -/
def plainWorld : World :=
  { lowerTable := id, getenv := fun _ => [], wd := "/".toList,
    httpgzipFileServer := fun _ w _ => w, httpFileServer := fun _ w _ => w,
    roundTrip := fun _ _ => Header.empty }

/-- The plain world, except that the upstream answers every request with
`Content-Type: text/plain`. -/
def textUpstreamWorld : World :=
  { plainWorld with
    roundTrip := fun _ _ => Header.empty.Set "Content-Type".toList "text/plain".toList }

/-- The default flags (`-v`, `-a`, `-c` all off), base directory `/srv/app`. -/
def defaultFlags : Flags :=
  { verbosePtr := false, cachePtr := false, caseFlag := false, basePath := "/srv/app".toList }

/-- A hive with every field empty. -/
def emptyHive : Hive := { Path := [], Hive := [], Host := [], Route := [], Java := false }

/-- The hive `{path:"/v1", route:"/internal/v1"}`. -/
def v1Hive : Hive :=
  { emptyHive with Path := "/v1".toList, Route := "/internal/v1".toList }

/-- The server of the forwarding scenario: `api` with one remote hive. -/
def apiServer : Server :=
  { HTTPS := false, Name := "api".toList, Host := "http://upstream.example".toList, Port := [],
    Hives := { LocalHives := [], CriticalHives := [], RemoteHives := [v1Hive] } }

/-- A server whose host carries a path, with the remote hive
`{path:"/api/", route:"/v2/"}`. -/
def backendServer : Server :=
  { HTTPS := false, Name := "backend".toList, Host := "http://backend/api".toList, Port := [],
    Hives := { LocalHives := [], CriticalHives := [],
               RemoteHives := [{ emptyHive with Path := "/api/".toList,
                                                Route := "/v2/".toList }] } }

/-- The local hive `{path:"./static", hive:"/assets"}`. -/
def staticHive : Hive :=
  { emptyHive with Path := "./static".toList, Hive := "/assets".toList }

/-- A server with the single local hive `staticHive`. -/
def staticServer : Server :=
  { HTTPS := false, Name := "static".toList, Host := "http://upstream.example".toList, Port := [],
    Hives := { CriticalHives := [], LocalHives := [staticHive], RemoteHives := [] } }

/-- A server with the single remote hive `/foo`. -/
def fooServer : Server :=
  { HTTPS := false, Name := "foo".toList, Host := "http://upstream.example".toList, Port := [],
    Hives := { CriticalHives := [], LocalHives := [],
               RemoteHives := [{ emptyHive with Path := "/foo".toList }] } }

/-- The flags with `-c` given: request paths keep their case. -/
def keepCaseFlags : Flags :=
  { defaultFlags with caseFlag := true }

/-- The request of the request line `GET /Foo%0A HTTP/1.1`: the escape
decodes to a line feed in `URL.Path`. -/
def lineFeedRequest : Request :=
  { Method := "GET".toList, RequestURI := "/Foo%0A".toList,
    URL := { Path := "/Foo\n".toList, RawPath := [] },
    Host := "localhost".toList, Header := Header.empty }

/-- The request of the request line `GET /V1/users HTTP/1.1`. -/
def upperCaseRequest : Request :=
  { Method := "GET".toList, RequestURI := "/V1/users".toList,
    URL := { Path := "/V1/users".toList }, Host := "localhost".toList, Header := Header.empty }

/-- A GET request as the HTTP server presents it to the handler. -/
def getRequest (requestURI : GoString) : Option Request :=
  readRequest "GET".toList requestURI "localhost".toList Header.empty

/-! ## Facts about the `strings` functions -/

/-- What the scan of `strings.Index` returns: `-1` exactly when `substr` does
not occur, otherwise the offset of the leftmost occurrence. -/
theorem indexFrom_spec (substr : GoString) : ∀ (s : GoString) (i : Nat),
    (indexFrom substr s i = -1 ∧ ¬ substr <:+: s) ∨
    (∃ k : Nat, indexFrom substr s i = ((i + k : Nat) : Int) ∧ k ≤ s.length ∧
      substr <+: s.drop k ∧ ∀ j, j < k → ¬ substr <+: s.drop j) := by
  intro s
  induction s with
  | nil =>
    intro i
    by_cases h : substr = []
    · right
      refine ⟨0, by simp [indexFrom, h], by simp, by simp [h], by simp⟩
    · left
      refine ⟨by simp [indexFrom, h], ?_⟩
      intro hin
      exact h (List.infix_nil.mp hin)
  | cons c t ih =>
    intro i
    by_cases h : substr.isPrefixOf (c :: t) = true
    · right
      refine ⟨0, by simp [indexFrom, h], by simp, ?_, by simp⟩
      simpa using List.isPrefixOf_iff_prefix.mp h
    · have hnp : ¬ substr <+: c :: t := fun hp => h (List.isPrefixOf_iff_prefix.mpr hp)
      rcases ih (i + 1) with ⟨h1, h2⟩ | ⟨k, h1, h2, h3, h4⟩
      · left
        refine ⟨by simp [indexFrom, h, h1], ?_⟩
        intro hin
        rcases List.infix_cons_iff.mp hin with hp | hi
        · exact hnp hp
        · exact h2 hi
      · right
        refine ⟨k + 1, ?_, by simpa using h2, by simpa using h3, ?_⟩
        · simp only [indexFrom, h, if_false, h1]
          push_cast
          ring
        · intro j hj
          cases j with
          | zero => simpa using hnp
          | succ j =>
            have := h4 j (by omega)
            simpa using this

/-- `strings.Index` returns `-1` exactly when there is no occurrence. -/
theorem Index_eq_neg_one_iff (s substr : GoString) :
    Index s substr = -1 ↔ ¬ substr <:+: s := by
  unfold Index
  rcases indexFrom_spec substr s 0 with ⟨h1, h2⟩ | ⟨k, h1, _, h3, _⟩
  · simp [h1, h2]
  · have hin : substr <:+: s :=
      (h3.isInfix).trans (List.drop_suffix k s).isInfix
    constructor
    · intro h
      rw [h1] at h
      omega
    · intro h
      exact absurd hin h

/-- When `substr` occurs, `strings.Index` is the offset of its leftmost occurrence. -/
theorem Index_of_leftmost (substr pre post : GoString)
    (hmin : ∀ j, j < pre.length → ¬ substr <+: (pre ++ substr ++ post).drop j) :
    Index (pre ++ substr ++ post) substr = (pre.length : Int) := by
  unfold Index
  rcases indexFrom_spec substr (pre ++ substr ++ post) 0 with ⟨_, h2⟩ | ⟨k, h1, _, h3, h4⟩
  · exact absurd ⟨pre, post, rfl⟩ h2
  · have hk1 : ¬ k < pre.length := fun hlt => hmin k hlt h3
    have hk2 : ¬ pre.length < k := by
      intro hlt
      apply h4 pre.length hlt
      rw [List.append_assoc, List.drop_left]
      exact List.prefix_append _ _
    have : k = pre.length := by omega
    rw [h1, this]
    simp

/-- `strings.Count` is zero exactly when a non-empty `substr` does not occur. -/
theorem Count_eq_zero_iff (s substr : GoString) :
    Count s substr = 0 ↔ ¬ substr <:+: s := by
  unfold Count
  by_cases h : substr = []
  · subst h
    simp
  · simp only [h, if_false, countLoop]
    rw [← Index_eq_neg_one_iff]
    by_cases hi : Index s substr = -1
    · simp [hi]
    · simp [hi]

/-- With `n = 1` and no occurrence of `old`, `strings.Replace` returns `s`. -/
theorem Replace_one_of_not_infix (s old new : GoString) (h : ¬ old <:+: s) :
    Replace s old new 1 = s := by
  unfold Replace
  by_cases hon : old = new
  · simp [hon]
  · have hc : Count s old = 0 := (Count_eq_zero_iff s old).mpr h
    simp [hon, hc]

/-- With `n = 1`, `strings.Replace` rewrites the leftmost occurrence of `old`
and nothing else. -/
theorem Replace_one_of_leftmost (old new pre post : GoString)
    (hmin : ∀ j, j < pre.length → ¬ old <+: (pre ++ old ++ post).drop j) :
    Replace (pre ++ old ++ post) old new 1 = pre ++ new ++ post := by
  by_cases hon : old = new
  · subst hon
    simp [Replace]
  · have hin : old <:+: pre ++ old ++ post := ⟨pre, post, rfl⟩
    have hc : Count (pre ++ old ++ post) old ≠ 0 := by
      intro h0
      exact (Count_eq_zero_iff _ _).mp h0 hin
    have hn : (if (1 : Int) < 0 ∨ ((Count (pre ++ old ++ post) old : Nat) : Int) < 1
        then ((Count (pre ++ old ++ post) old : Nat) : Int) else 1) = 1 := by
      have : ¬ ((1 : Int) < 0 ∨ ((Count (pre ++ old ++ post) old : Nat) : Int) < 1) := by
        omega
      rw [if_neg this]
    have hidx := Index_of_leftmost old pre post hmin
    unfold Replace
    simp only [hon, false_or, one_ne_zero, if_false, Int.natCast_eq_zero, hc, hn]
    by_cases he : old = []
    · subst he
      have hpre : pre = [] := by
        cases pre with
        | nil => rfl
        | cons c t => exact absurd (List.nil_prefix) (hmin 0 (by simp))
      subst hpre
      simp [replaceLoop]
    · have h1 : (1 : Int).toNat = 0 + 1 := rfl
      rw [h1]
      simp only [replaceLoop, he, if_false, hidx, Int.toNat_ofNat]
      rw [List.append_assoc pre old post, List.take_left, List.drop_append,
        List.drop_left]
      simp

/-- An occurrence of `old` in `s` has a leftmost one. -/
theorem exists_leftmost (old s : GoString) (h : old <:+: s) :
    ∃ pre post, s = pre ++ old ++ post ∧
      ∀ j, j < pre.length → ¬ old <+: s.drop j := by
  rcases indexFrom_spec old s 0 with ⟨_, h2⟩ | ⟨k, _, hk, h3, h4⟩
  · exact absurd h h2
  · obtain ⟨post, hpost⟩ := h3
    refine ⟨s.take k, post, ?_, ?_⟩
    · rw [List.append_assoc, hpost, List.take_append_drop]
    · intro j hj
      apply h4 j
      simpa [List.length_take, hk] using hj

/-- The leftmost occurrence in the form used by the claims: no decomposition
of the text around `old` has a shorter part before `old`. -/
theorem leftmost_of_drop (old s pre : GoString)
    (hmin : ∀ j, j < pre.length → ¬ old <+: s.drop j) :
    ∀ pre' post', s = pre' ++ old ++ post' → pre.length ≤ pre'.length := by
  intro pre' post' h'
  by_contra hlt
  apply hmin pre'.length (by omega)
  rw [h', List.append_assoc, List.drop_left]
  exact List.prefix_append _ _

/-- The origin of the forward is the hive host when there is one, the server
host otherwise. -/
theorem baseurl_eq (server : Server) (hive : Hive) :
    baseurl server hive = if hive.Host = [] then server.Host else hive.Host := by
  unfold baseurl
  by_cases h : hive.Host = [] <;> simp [h]

/-! ## Facts about the router -/

/-- A rooted path is accepted by a prefix route exactly when the template is
a prefix of it: the slash requirement of `mux` is then automatic. -/
theorem PathPrefixMatch_iff (tpl path : GoString) (hroot : path.head? = some '/') :
    PathPrefixMatch tpl path = true ↔ tpl <+: path := by
  unfold PathPrefixMatch
  rw [Bool.and_eq_true, List.isPrefixOf_iff_prefix]
  constructor
  · exact fun h => h.2
  · intro h
    refine ⟨?_, h⟩
    obtain ⟨t, ht⟩ := h
    cases tpl with
    | nil => simp
    | cons c cs =>
      subst ht
      simp only [List.cons_append, List.head?_cons, Option.some.injEq] at hroot
      simp [hroot]

/-- What a prefix route accepts begins with its template. -/
theorem prefix_of_PathPrefixMatch (tpl path : GoString) (h : PathPrefixMatch tpl path = true) :
    tpl <+: path := by
  unfold PathPrefixMatch at h
  rw [Bool.and_eq_true, List.isPrefixOf_iff_prefix] at h
  exact h.2

/-- First-match search over the routes of one hive list: either no hive of
the list is accepted, or the search stops at the first accepted one. -/
theorem find_enumFrom_map (f : Nat × Hive → Route) (q : Route → Bool) :
    ∀ (hs : List Hive) (n : Nat),
      (((hs.enumFrom n).map f).find? q = none ∧
          ∀ i h, hs[i]? = some h → q (f (n + i, h)) = false) ∨
      (∃ i h, hs[i]? = some h ∧ ((hs.enumFrom n).map f).find? q = some (f (n + i, h)) ∧
          q (f (n + i, h)) = true ∧
          ∀ j h', j < i → hs[j]? = some h' → q (f (n + j, h')) = false) := by
  intro hs
  induction hs with
  | nil =>
    intro n
    left
    simp
  | cons a t ih =>
    intro n
    by_cases hq : q (f (n, a)) = true
    · right
      refine ⟨0, a, by simp, ?_, by simpa using hq, ?_⟩
      · simp [List.enumFrom_cons, List.find?_cons_of_pos, hq]
      · intro j h' hj
        omega
    · have hq' : q (f (n, a)) = false := by simpa using hq
      have hfind : (((a :: t).enumFrom n).map f).find? q = ((t.enumFrom (n + 1)).map f).find? q := by
        simp [List.enumFrom_cons, List.find?_cons_of_neg, hq]
      rcases ih (n + 1) with ⟨h1, h2⟩ | ⟨i, h, h1, h2, h3, h4⟩
      · left
        refine ⟨by rw [hfind, h1], ?_⟩
        intro i h hi
        cases i with
        | zero =>
          simp only [List.getElem?_cons_zero, Option.some.injEq] at hi
          subst hi
          simpa using hq'
        | succ i =>
          simp only [List.getElem?_cons_succ] at hi
          have := h2 i h hi
          rwa [show n + 1 + i = n + (i + 1) by omega] at this
      · right
        refine ⟨i + 1, h, by simpa using h1, ?_, ?_, ?_⟩
        · rw [hfind, h2, show n + 1 + i = n + (i + 1) by omega]
        · rwa [show n + 1 + i = n + (i + 1) by omega] at h3
        · intro j h' hj hjh
          cases j with
          | zero =>
            simp only [List.getElem?_cons_zero, Option.some.injEq] at hjh
            subst hjh
            simpa using hq'
          | succ j =>
            simp only [List.getElem?_cons_succ] at hjh
            have := h4 j h' (by omega) hjh
            rwa [show n + 1 + j = n + (j + 1) by omega] at this

/-- The router's match, class by class: the route of the first accepting
critical hive; failing that of the first accepting local hive; failing that
of the first accepting remote hive; failing that the catch-all if its
pattern accepts the path; and no route otherwise. -/
theorem routerMatch_cases (W : World) (fl : Flags) (server : Server) (path : GoString) :
    (∃ i h, server.Hives.CriticalHives[i]? = some h ∧ PathPrefixMatch h.Path path = true ∧
        (∀ j, j < i → ¬ AcceptsAt (fun h => h.Path) server.Hives.CriticalHives path j) ∧
        routerMatch (routes W fl server) path = some (criticalRoute W fl server (i, h))) ∨
    ((∀ j, ¬ AcceptsAt (fun h => h.Path) server.Hives.CriticalHives path j) ∧
      ((∃ i h, server.Hives.LocalHives[i]? = some h ∧
          PathPrefixMatch (hivePath W h) path = true ∧
          (∀ j, j < i → ¬ AcceptsAt (hivePath W) server.Hives.LocalHives path j) ∧
          routerMatch (routes W fl server) path = some (localRoute W fl (i, h))) ∨
       ((∀ j, ¬ AcceptsAt (hivePath W) server.Hives.LocalHives path j) ∧
        ((∃ i h, server.Hives.RemoteHives[i]? = some h ∧ PathPrefixMatch h.Path path = true ∧
            (∀ j, j < i → ¬ AcceptsAt (fun h => h.Path) server.Hives.RemoteHives path j) ∧
            routerMatch (routes W fl server) path = some (remoteRoute W fl server (i, h))) ∨
         ((∀ j, ¬ AcceptsAt (fun h => h.Path) server.Hives.RemoteHives path j) ∧
          routerMatch (routes W fl server) path
            = if catchAllMatch path = true
              then some { id := .catchAll, accepts := catchAllMatch, handler := serveBase W fl }
              else none))))) := by
  unfold routerMatch routes
  simp only [List.enum, List.find?_append]
  rcases find_enumFrom_map (criticalRoute W fl server) (fun rt => rt.accepts path)
      server.Hives.CriticalHives 0 with ⟨c1, c2⟩ | ⟨i, h, c1, c2, c3, c4⟩
  · right
    refine ⟨fun j ⟨h, hj, hm⟩ => by
      simpa [criticalRoute, localRoute, remoteRoute, hm] using c2 j h hj, ?_⟩
    rcases find_enumFrom_map (localRoute W fl) (fun rt => rt.accepts path)
        server.Hives.LocalHives 0 with ⟨l1, l2⟩ | ⟨i, h, l1, l2, l3, l4⟩
    · right
      refine ⟨fun j ⟨h, hj, hm⟩ => by
        simpa [criticalRoute, localRoute, remoteRoute, hm] using l2 j h hj, ?_⟩
      rcases find_enumFrom_map (remoteRoute W fl server) (fun rt => rt.accepts path)
          server.Hives.RemoteHives 0 with ⟨r1, r2⟩ | ⟨i, h, r1, r2, r3, r4⟩
      · right
        refine ⟨fun j ⟨h, hj, hm⟩ => by
          simpa [criticalRoute, localRoute, remoteRoute, hm] using r2 j h hj, ?_⟩
        rw [c1, l1, r1]
        by_cases hc : catchAllMatch path = true
        · simp [hc]
        · simp [hc]
      · left
        refine ⟨i, h, r1, by simpa [remoteRoute] using r3, ?_, ?_⟩
        · intro j hj ⟨h', hj', hm⟩
          simpa [criticalRoute, localRoute, remoteRoute, hm] using r4 j h' hj hj'
        · rw [c1, l1, r2]
          simp
    · left
      refine ⟨i, h, l1, by simpa [localRoute] using l3, ?_, ?_⟩
      · intro j hj ⟨h', hj', hm⟩
        simpa [criticalRoute, localRoute, remoteRoute, hm] using l4 j h' hj hj'
      · rw [c1, l2]
        simp
  · left
    refine ⟨i, h, c1, by simpa [criticalRoute] using c3, ?_, ?_⟩
    · intro j hj ⟨h', hj', hm⟩
      simpa [criticalRoute, localRoute, remoteRoute, hm] using c4 j h' hj hj'
    · rw [c2]
      simp

/-- The router's decision, class by class, as a route identity. -/
theorem dispatch_cases (W : World) (fl : Flags) (server : Server) (path : GoString) :
    (∃ i, AcceptsAt (fun h => h.Path) server.Hives.CriticalHives path i ∧
        (∀ j, j < i → ¬ AcceptsAt (fun h => h.Path) server.Hives.CriticalHives path j) ∧
        dispatch W fl server path = some (.critical i)) ∨
    ((∀ j, ¬ AcceptsAt (fun h => h.Path) server.Hives.CriticalHives path j) ∧
      ((∃ i, AcceptsAt (hivePath W) server.Hives.LocalHives path i ∧
          (∀ j, j < i → ¬ AcceptsAt (hivePath W) server.Hives.LocalHives path j) ∧
          dispatch W fl server path = some (.localHive i)) ∨
       ((∀ j, ¬ AcceptsAt (hivePath W) server.Hives.LocalHives path j) ∧
        ((∃ i, AcceptsAt (fun h => h.Path) server.Hives.RemoteHives path i ∧
            (∀ j, j < i → ¬ AcceptsAt (fun h => h.Path) server.Hives.RemoteHives path j) ∧
            dispatch W fl server path = some (.remote i)) ∨
         ((∀ j, ¬ AcceptsAt (fun h => h.Path) server.Hives.RemoteHives path j) ∧
          dispatch W fl server path
            = if catchAllMatch path = true then some .catchAll else none))))) := by
  unfold dispatch
  rcases routerMatch_cases W fl server path with
    ⟨i, h, h1, h2, h3, h4⟩ | ⟨hC, ⟨i, h, h1, h2, h3, h4⟩ |
      ⟨hL, ⟨i, h, h1, h2, h3, h4⟩ | ⟨hR, h4⟩⟩⟩
  · exact Or.inl ⟨i, ⟨h, h1, h2⟩, h3, by rw [h4]; rfl⟩
  · exact Or.inr ⟨hC, Or.inl ⟨i, ⟨h, h1, h2⟩, h3, by rw [h4]; rfl⟩⟩
  · exact Or.inr ⟨hC, Or.inr ⟨hL, Or.inl ⟨i, ⟨h, h1, h2⟩, h3, by rw [h4]; rfl⟩⟩⟩
  · refine Or.inr ⟨hC, Or.inr ⟨hL, Or.inr ⟨hR, ?_⟩⟩⟩
    rw [h4]
    by_cases hc : catchAllMatch path = true
    · simp [hc]
    · simp [hc]

/-! ## Facts about the middleware -/

/-- `Header.Add` on an absent key stores exactly what `Header.Set` stores. -/
theorem Header.Add_eq_Set_of_absent (w : Header) (key value : GoString)
    (h : w key = none) : w.Add key value = w.Set key value := by
  funext k
  unfold Header.Add Header.Set
  by_cases hk : k = key
  · subst hk
    simp [h]
  · simp [hk]

/-- The test `strings.Index(r.URL.Path, ".js") > 0` succeeds on a rooted
path that contains `.js`. -/
theorem Index_js_pos (path : GoString) (hroot : path.head? = some '/')
    (hjs : ".js".toList <:+: path) : Index path ".js".toList > 0 := by
  unfold Index
  rcases indexFrom_spec ".js".toList path 0 with ⟨_, h2⟩ | ⟨k, h1, _, h3, _⟩
  · exact absurd hjs h2
  · rw [h1]
    cases k with
    | zero =>
      exfalso
      obtain ⟨t, ht⟩ := h3
      simp only [List.drop_zero] at ht
      rw [← ht] at hroot
      simp at hroot
    | succ k =>
      push_cast
      omega

/-- What `correct_MIME_TYPE` does when its test succeeds: `Content-Type` is
set to the JavaScript type, then the wrapped handler runs. -/
theorem correct_MIME_TYPE_of_pos (next : Handler) (w : Header) (r : Request)
    (h : Index r.URL.Path ".js".toList > 0) :
    correct_MIME_TYPE next w r
      = next (w.Set "Content-Type".toList "application/javascript;charset=utf-8".toList) r := by
  unfold correct_MIME_TYPE
  rw [if_pos h]
  by_cases hk : (w "Content-Type".toList).isSome = true
  · rw [if_pos hk]
  · rw [if_neg hk, Header.Add_eq_Set_of_absent]
    simpa using hk

/-- `correct_MIME_TYPE` hands `next` a header map that differs from the one
it received at most in `Content-Type`. -/
theorem correct_MIME_TYPE_frame (next : Handler) (w : Header) (r : Request) :
    ∃ w1 : Header, correct_MIME_TYPE next w r = next w1 r ∧
      ∀ k, k ≠ "Content-Type".toList → w1 k = w k := by
  unfold correct_MIME_TYPE
  by_cases h : Index r.URL.Path ".js".toList > 0
  · rw [if_pos h]
    by_cases hk : (w "Content-Type".toList).isSome = true
    · rw [if_pos hk]
      exact ⟨_, rfl, fun k hk' => if_neg hk'⟩
    · rw [if_neg hk]
      exact ⟨_, rfl, fun k hk' => if_neg hk'⟩
  · rw [if_neg h]
    exact ⟨w, rfl, fun _ _ => rfl⟩

/-- The mounted handler is the router run on the request whose path is the
routed path. -/
theorem handler_eq_router (W : World) (fl : Flags) (server : Server) (w : Header)
    (r : Request) :
    ∃ r' : Request, r'.URL.Path = routedPath W fl r.URL.Path ∧
      handler W fl server w r = router W fl server w r' := by
  unfold handler routedPath
  by_cases hc : fl.caseFlag = true
  · exact ⟨r, by simp [hc], by simp [hc]⟩
  · exact ⟨lowerCasePath W r, by simp [hc, lowerCasePath], by simp [hc, caselessMatcher]⟩

/-- `http.StripPrefix` either answers 404 or runs the wrapped handler on a
request. -/
theorem StripPrefix_cases (strip : GoString) (h : Handler) (w : Header) (r : Request) :
    StripPrefix strip h w r = NotFound w r ∨ ∃ r', StripPrefix strip h w r = h w r' := by
  unfold StripPrefix
  by_cases hs : strip = []
  · rw [if_pos hs]
    exact Or.inr ⟨r, rfl⟩
  · rw [if_neg hs]
    simp only
    split_ifs <;> first | exact Or.inl rfl | exact Or.inr ⟨_, rfl⟩

/-- With caching off a local hive handler either answers 404 (nothing to
strip) or adds `no-store` to the `Cache-Control` values it was handed, as
long as the file server leaves that key alone. -/
theorem localHandler_cache_control (W : World) (fl : Flags) (hive : Hive) (w : Header)
    (r : Request) (hcache : fl.cachePtr = false)
    (hfs : ∀ root w' r', W.httpgzipFileServer root w' r' "Cache-Control".toList
      = w' "Cache-Control".toList) :
    (localHandler W fl hive w r).Outcome = .notFound ∨
    (localHandler W fl hive w r).Header "Cache-Control".toList
      = some ((w "Cache-Control".toList).getD [] ++ ["no-store".toList]) := by
  have hserve : ∀ r', (changeHeaderThenServe (serveHive W fl hive) fl.verbosePtr fl.cachePtr
      w r').Header "Cache-Control".toList
        = some ((w "Cache-Control".toList).getD [] ++ ["no-store".toList]) := by
    intro r'
    simp only [changeHeaderThenServe, serveHive, hcache, hfs]
    simp [Header.Add]
  rcases StripPrefix_cases (hivePath W hive)
      (changeHeaderThenServe (serveHive W fl hive) fl.verbosePtr fl.cachePtr) w r with h | ⟨r', h⟩
  · left
    unfold localHandler
    rw [h]
    rfl
  · right
    unfold localHandler
    rw [h]
    exact hserve r'

/-- Copying into a header map that lacks a key leaves that key with the
values of the source. -/
theorem copyHeader_getD (dst src : Header) (k : GoString) (h : dst k = none) :
    (copyHeader dst src k).getD [] = (src k).getD [] := by
  unfold copyHeader
  rw [h]
  cases src k with
  | none => rfl
  | some vs => cases vs <;> rfl

/-- The header of a proxied response: the `Cache-Control` values are those
the `ResponseWriter` already had followed by those of the upstream response
(after `ModifyResponse`). -/
theorem proxyHandler_forwarded (W : World) (fl : Flags) (server : Server) (hive : Hive)
    (w : Header) (r : Request) (url : URL) (host : GoString)
    (hout : (proxyHandler W fl server hive w r).Outcome = .forwarded url host) :
    (proxyHandler W fl server hive w r).Header
      = copyHeader w (ModifyResponse fl.cachePtr (W.roundTrip url host)) := by
  unfold proxyHandler at hout ⊢
  split at hout
  · cases hout
  · cases hout
  · rename_i target htarget
    simp only [Outcome.forwarded.injEq] at hout
    simp only [htarget]
    rw [hout.1, hout.2]

/-- C1: for a critical or remote hive with a non-empty route and a request URI
that starts with the hive path, the destination is origin ++ request URI with
the leftmost occurrence of the hive path replaced by the route; the text
before and after that occurrence, later occurrences included, is unchanged. -/
theorem destination_rewrites_first_occurrence (server : Server) (hive : Hive)
    (requestURI : GoString) (hroute : hive.Route ≠ []) (hstart : hive.Path <+: requestURI) :
    ∃ pre post,
      (if hive.Host = [] then server.Host else hive.Host) ++ requestURI
        = pre ++ hive.Path ++ post ∧
      (∀ pre' post',
        (if hive.Host = [] then server.Host else hive.Host) ++ requestURI
          = pre' ++ hive.Path ++ post' → pre.length ≤ pre'.length) ∧
      destinationURL server hive requestURI = pre ++ hive.Route ++ post := by
  rw [← baseurl_eq]
  have hin : hive.Path <:+: baseurl server hive ++ requestURI :=
    hstart.isInfix.trans (List.suffix_append _ _).isInfix
  obtain ⟨pre, post, hs, hmin⟩ := exists_leftmost _ _ hin
  refine ⟨pre, post, hs, leftmost_of_drop _ _ pre hmin, ?_⟩
  simp only [destinationURL, hroute, ne_eq, not_false_eq_true, if_true]
  rw [hs]
  rw [hs] at hmin
  exact Replace_one_of_leftmost _ _ pre post hmin

/-- C1 at a concrete request: a later occurrence of `/v1` in the query stays. -/
theorem destination_rewrites_first_occurrence_witness :
    v1Hive.Route ≠ [] ∧ v1Hive.Path <+: "/v1/users?next=/v1/x".toList ∧
    ∃ pre post,
      (if v1Hive.Host = [] then apiServer.Host else v1Hive.Host) ++ "/v1/users?next=/v1/x".toList
        = pre ++ v1Hive.Path ++ post ∧
      (∀ pre' post',
        (if v1Hive.Host = [] then apiServer.Host else v1Hive.Host)
            ++ "/v1/users?next=/v1/x".toList
          = pre' ++ v1Hive.Path ++ post' → pre.length ≤ pre'.length) ∧
      destinationURL apiServer v1Hive "/v1/users?next=/v1/x".toList
        = pre ++ v1Hive.Route ++ post :=
  ⟨by decide, ⟨"/users?next=/v1/x".toList, by decide⟩,
    destination_rewrites_first_occurrence apiServer v1Hive
      "/v1/users?next=/v1/x".toList (by decide) ⟨"/users?next=/v1/x".toList, by decide⟩⟩

/-- C10: when the hive path (non-empty, with a non-empty route) occurs inside
the origin, the substitution rewrites the leftmost occurrence inside the
origin and the request URI is appended unchanged. -/
theorem rewrite_lands_in_origin (server : Server) (hive : Hive) (requestURI : GoString)
    (hroute : hive.Route ≠ []) (_hpath : hive.Path ≠ [])
    (hin : hive.Path <:+: (if hive.Host = [] then server.Host else hive.Host)) :
    destinationURL server hive requestURI
        = Replace (if hive.Host = [] then server.Host else hive.Host) hive.Path hive.Route 1
          ++ requestURI ∧
    ∃ pre post,
      (if hive.Host = [] then server.Host else hive.Host) = pre ++ hive.Path ++ post ∧
      (∀ pre' post', (if hive.Host = [] then server.Host else hive.Host)
          = pre' ++ hive.Path ++ post' → pre.length ≤ pre'.length) ∧
      destinationURL server hive requestURI = pre ++ hive.Route ++ post ++ requestURI := by
  rw [← baseurl_eq] at *
  obtain ⟨pre, post, hs, hmin⟩ := exists_leftmost _ _ hin
  have hmin' : ∀ j, j < pre.length →
      ¬ hive.Path <+: (pre ++ hive.Path ++ (post ++ requestURI)).drop j := by
    intro j hj hp
    apply hmin j hj
    rw [hs]
    have hle : j ≤ (pre ++ hive.Path ++ post).length := by
      simp only [List.length_append]
      omega
    have hsplit : (pre ++ hive.Path ++ (post ++ requestURI)).drop j
        = (pre ++ hive.Path ++ post).drop j ++ requestURI := by
      rw [← List.drop_append_of_le_length hle]
      simp [List.append_assoc]
    rw [hsplit] at hp
    refine List.prefix_of_prefix_length_le hp (List.prefix_append _ _) ?_
    simp only [List.length_drop, List.length_append]
    omega
  have hdest : destinationURL server hive requestURI = pre ++ hive.Route ++ post ++ requestURI := by
    simp only [destinationURL, hroute, ne_eq, not_false_eq_true, if_true]
    rw [hs]
    have := Replace_one_of_leftmost hive.Path hive.Route pre (post ++ requestURI) hmin'
    simp only [List.append_assoc] at this ⊢
    exact this
  have horigin : Replace (baseurl server hive) hive.Path hive.Route 1
      = pre ++ hive.Route ++ post := by
    rw [hs] at hmin
    rw [hs]
    exact Replace_one_of_leftmost _ _ pre post hmin
  refine ⟨by rw [hdest, horigin], pre, post, hs, leftmost_of_drop _ _ pre hmin, hdest⟩

/-- C10 at a concrete hive: the path `/api` occurs in the origin
`http://backend/api`, so the request's own `/api` stays. -/
theorem rewrite_lands_in_origin_witness :
    destinationURL backendServer { emptyHive with Path := "/api".toList, Route := "/v2".toList }
        "/api/users".toList = "http://backend/v2/api/users".toList :=
  ((rewrite_lands_in_origin backendServer
      { emptyHive with Path := "/api".toList, Route := "/v2".toList } "/api/users".toList
      (by decide) (by decide) ⟨"http://backend".toList, [], by decide⟩).1).trans (by decide)

/-- C9 as stated fails: neither the origin `http://backend/api` nor the
request URI `/API/users` (routed to the hive by case-folding) contains the
hive path `/api/`, yet the occurrence across their junction is rewritten. -/
theorem junction_occurrence_is_rewritten :
    routeOf plainWorld defaultFlags backendServer "/API/users".toList = some (.remote 0) ∧
    ¬ "/api/".toList <:+: "http://backend/api".toList ∧
    ¬ "/api/".toList <:+: "/API/users".toList ∧
    destinationURL backendServer { emptyHive with Path := "/api/".toList, Route := "/v2/".toList }
        "/API/users".toList = "http://backend/v2/API/users".toList ∧
    destinationURL backendServer { emptyHive with Path := "/api/".toList, Route := "/v2/".toList }
        "/API/users".toList ≠ "http://backend/api".toList ++ "/API/users".toList := by
  refine ⟨by decide, by decide, by decide, by decide, by decide⟩

/-- C9, amended: `caselessMatcher` lower-cases only `URL.Path` and leaves the
raw request URI as it is, and for a proxy hive with a non-empty route the
destination built from that request is exactly origin ++ request URI whenever
the concatenation origin ++ request URI has no exact-case occurrence of the
hive path. -/
theorem no_occurrence_no_rewrite (W : World) (server : Server) (hive : Hive) (r : Request)
    (hroute : hive.Route ≠ [])
    (hno : ¬ hive.Path <:+: (if hive.Host = [] then server.Host else hive.Host) ++ r.RequestURI) :
    (lowerCasePath W r).RequestURI = r.RequestURI ∧
    (lowerCasePath W r).URL.Path = ToLower W.lowerTable r.URL.Path ∧
    (∀ (next : Handler) (w : Header), caselessMatcher W next w r = next w (lowerCasePath W r)) ∧
    destinationURL server hive (lowerCasePath W r).RequestURI
      = (if hive.Host = [] then server.Host else hive.Host) ++ r.RequestURI := by
  rw [← baseurl_eq] at *
  refine ⟨rfl, rfl, fun _ _ => rfl, ?_⟩
  show destinationURL server hive r.RequestURI = _
  simp only [destinationURL, hroute, ne_eq, not_false_eq_true, if_true]
  exact Replace_one_of_not_infix _ _ _ hno

/-- C9, amended, at the request `/V1/users` for the hive `/v1`: case-folding
routes it to the hive and the destination keeps the request URI as sent. -/
theorem no_occurrence_no_rewrite_witness :
    routeOf plainWorld defaultFlags apiServer upperCaseRequest.URL.Path = some (.remote 0) ∧
    destinationURL apiServer v1Hive (lowerCasePath plainWorld upperCaseRequest).RequestURI
      = "http://upstream.example/V1/users".toList :=
  ⟨by decide,
    ((no_occurrence_no_rewrite plainWorld apiServer v1Hive upperCaseRequest
      (by decide) (by decide)).2.2.2).trans (by decide)⟩

/-- With case-folding on (`-c` not given), request paths that differ only in
letter case are dispatched to the same route. -/
theorem folded_paths_share_route (W : World) (fl : Flags) (server : Server)
    (p q : GoString) (hflag : fl.caseFlag = false)
    (hcase : ToLower W.lowerTable p = ToLower W.lowerTable q) :
    routeOf W fl server p = routeOf W fl server q := by
  simp [routeOf, routedPath, hflag, hcase]

/-- With case-folding off (`-c` given) the router matches on the path as it
came: a request reaches a hive only if the registered template of that hive
is an exact-case prefix of the path, and a path of which no registered
template is a prefix goes to the catch-all whenever the catch-all pattern
accepts it. -/
theorem kept_case_routes_exactly (W : World) (fl : Flags) (server : Server)
    (p : GoString) (hflag : fl.caseFlag = true) :
    routeOf W fl server p = dispatch W fl server p ∧
    (∀ i, routeOf W fl server p = some (.critical i) →
      ∃ h, server.Hives.CriticalHives[i]? = some h ∧ h.Path <+: p) ∧
    (∀ i, routeOf W fl server p = some (.localHive i) →
      ∃ h, server.Hives.LocalHives[i]? = some h ∧ hivePath W h <+: p) ∧
    (∀ i, routeOf W fl server p = some (.remote i) →
      ∃ h, server.Hives.RemoteHives[i]? = some h ∧ h.Path <+: p) ∧
    ((∀ h, h ∈ server.Hives.CriticalHives → ¬ h.Path <+: p) →
      (∀ h, h ∈ server.Hives.LocalHives → ¬ hivePath W h <+: p) →
      (∀ h, h ∈ server.Hives.RemoteHives → ¬ h.Path <+: p) →
      catchAllMatch p = true → routeOf W fl server p = some .catchAll) := by
  have hr : routeOf W fl server p = dispatch W fl server p := by
    simp [routeOf, routedPath, hflag]
  rw [hr]
  have hacc : ∀ (tpl : Hive → GoString) (hs : List Hive) (i : Nat), AcceptsAt tpl hs p i →
      ∃ h, hs[i]? = some h ∧ tpl h <+: p :=
    fun tpl hs i ⟨h, hi, hm⟩ => ⟨h, hi, prefix_of_PathPrefixMatch _ _ hm⟩
  have hmem : ∀ (tpl : Hive → GoString) (hs : List Hive) (i : Nat),
      (∀ h, h ∈ hs → ¬ tpl h <+: p) → ¬ AcceptsAt tpl hs p i := by
    intro tpl hs i hno ⟨h, hi, hm⟩
    exact hno h (List.getElem?_mem hi) (prefix_of_PathPrefixMatch _ _ hm)
  rcases dispatch_cases W fl server p with
    ⟨i, hi, _, hd⟩ | ⟨hC, ⟨i, hi, _, hd⟩ | ⟨hL, ⟨i, hi, _, hd⟩ | ⟨hR, hd⟩⟩⟩
  · refine ⟨rfl, ?_, ?_, ?_, ?_⟩
    · intro k hk
      rw [hd] at hk
      cases hk
      exact hacc _ _ _ hi
    · intro k hk
      rw [hd] at hk
      cases hk
    · intro k hk
      rw [hd] at hk
      cases hk
    · intro h1 _ _ _
      exact absurd hi (hmem _ _ _ h1)
  · refine ⟨rfl, ?_, ?_, ?_, ?_⟩
    · intro k hk
      rw [hd] at hk
      cases hk
    · intro k hk
      rw [hd] at hk
      cases hk
      exact hacc _ _ _ hi
    · intro k hk
      rw [hd] at hk
      cases hk
    · intro _ h2 _ _
      exact absurd hi (hmem _ _ _ h2)
  · refine ⟨rfl, ?_, ?_, ?_, ?_⟩
    · intro k hk
      rw [hd] at hk
      cases hk
    · intro k hk
      rw [hd] at hk
      cases hk
    · intro k hk
      rw [hd] at hk
      cases hk
      exact hacc _ _ _ hi
    · intro _ _ h3 _
      exact absurd hi (hmem _ _ _ h3)
  · refine ⟨rfl, ?_, ?_, ?_, ?_⟩
    · intro k hk
      rw [hd] at hk
      split at hk <;> cases hk
    · intro k hk
      rw [hd] at hk
      split at hk <;> cases hk
    · intro k hk
      rw [hd] at hk
      split at hk <;> cases hk
    · intro _ _ _ hca
      rw [hd, if_pos hca]

/-- C8 at the input where the code leaves it: with `-c` given and the remote
hive `/foo`, the exact-case path `/foo<LF>` is routed to the hive, while the
other casing `/Foo<LF>` (request line `GET /Foo%0A`) reaches neither the hive
nor the catch-all: the pattern `/{path:.*}` does not accept a line feed, no
route matches, and the router itself answers 404. Without the line feed the
other casing does fall through to the catch-all. -/
theorem other_casing_with_line_feed_misses_catch_all :
    routeOf plainWorld keepCaseFlags fooServer "/foo\n".toList = some (.remote 0) ∧
    routeOf plainWorld keepCaseFlags fooServer "/Foo".toList = some .catchAll ∧
    lineFeedRequest.URL.Path = "/Foo\n".toList ∧
    routeOf plainWorld keepCaseFlags fooServer lineFeedRequest.URL.Path = none ∧
    (handler plainWorld keepCaseFlags fooServer Header.empty lineFeedRequest).Outcome
      = .notFound := by
  refine ⟨by decide, by decide, by decide, by decide, by decide⟩

/-- C2: for the server `api` (host `http://upstream.example`) with the single
remote hive `{path:"/v1", route:"/internal/v1"}`, the request `GET
/v1/users?id=5` is forwarded to `http://upstream.example/internal/v1/users?id=5`:
the outgoing request has scheme `http`, host `upstream.example`, path
`/internal/v1/users` and raw query `id=5`, once. This holds for every setting
of the flags and whatever the collaborators do. -/
theorem api_scenario_forwarded (W : World) (fl : Flags) (w : Header) (host : GoString)
    (header : Header) :
    destinationURL apiServer v1Hive "/v1/users?id=5".toList
      = "http://upstream.example/internal/v1/users?id=5".toList ∧
    (readRequest "GET".toList "/v1/users?id=5".toList host header).map
        (fun r => (handler W fl apiServer w r).Outcome)
      = some (.forwarded
          { Scheme := "http".toList, Host := "upstream.example".toList,
            Path := "/internal/v1/users".toList, RawPath := [], RawQuery := "id=5".toList }
          "upstream.example".toList) := by
  refine ⟨by decide, ?_⟩
  obtain ⟨v, a, c, b⟩ := fl
  cases c <;> rfl

/-- C3 at the scenario of the claim: with base directory `/srv/app` the local
hive `{path:"./static", hive:"/assets"}` is served from `/srv/app./static`
(the base directory and the declared path are concatenated with nothing in
between), not from `/srv/app/static`, and a request to `/assets/logo.png`
opens `/srv/app./static/logo.png`. -/
theorem relative_hive_dir_lacks_separator (W : World) (v a c : Bool) (w : Header)
    (host : GoString) (header : Header) :
    localHiveDir W { verbosePtr := v, cachePtr := a, caseFlag := c, basePath := "/srv/app".toList }
        staticHive = "/srv/app./static".toList ∧
    localHiveDir W { verbosePtr := v, cachePtr := a, caseFlag := c, basePath := "/srv/app".toList }
        staticHive ≠ "/srv/app/static".toList ∧
    (readRequest "GET".toList "/assets/logo.png".toList host header).map
        (fun r => (handler W
          { verbosePtr := v, cachePtr := a, caseFlag := c, basePath := "/srv/app".toList }
          staticServer w r).Outcome)
      = some (.file "/srv/app./static/logo.png".toList) := by
  have h1 : localHiveDir W
      { verbosePtr := v, cachePtr := a, caseFlag := c, basePath := "/srv/app".toList }
      staticHive = "/srv/app./static".toList := rfl
  refine ⟨h1, ?_, ?_⟩
  · rw [h1]
    decide
  · cases c <;> cases a <;> rfl

/-- C4 as stated fails: with caching off (the default flags) a proxied
response whose upstream sent no `Cache-Control`, and a catch-all response,
carry no `Cache-Control` header at all, so no `no-store`. -/
theorem proxied_and_fallback_lack_no_store :
    defaultFlags.cachePtr = false ∧
    routeOf plainWorld defaultFlags apiServer "/v1/users".toList = some (.remote 0) ∧
    (getRequest "/v1/users?id=5".toList).map
        (fun r => (handler plainWorld defaultFlags apiServer Header.empty r).Header
          "Cache-Control".toList) = some none ∧
    routeOf plainWorld defaultFlags apiServer "/unknown/path".toList = some .catchAll ∧
    (getRequest "/unknown/path".toList).map
        (fun r => (handler plainWorld defaultFlags apiServer Header.empty r).Header
          "Cache-Control".toList) = some none := by
  refine ⟨by decide, by decide, by decide, by decide, by decide⟩

/-- C4, amended: with caching off, and no `Cache-Control` written before
the handler runs, a request
dispatched to a local hive is answered with `Cache-Control: no-store` (unless
`StripPrefix` answers 404 itself); a request forwarded by a critical or
remote hive is answered with exactly the `Cache-Control` values of the
upstream response; and a request dispatched to the catch-all is answered
without any `Cache-Control` header. The compressing file server is taken to
leave that header alone and the plain one not to add it. -/
theorem no_store_on_local_routes_only (W : World) (fl : Flags) (server : Server) (w : Header)
    (r : Request) (hcache : fl.cachePtr = false) (hfresh : w "Cache-Control".toList = none)
    (hgzip : ∀ root w' r', W.httpgzipFileServer root w' r' "Cache-Control".toList
      = w' "Cache-Control".toList)
    (hfile : ∀ root w' r', w' "Cache-Control".toList = none →
      W.httpFileServer root w' r' "Cache-Control".toList = none) :
    (∀ i, routeOf W fl server r.URL.Path = some (.localHive i) →
      (handler W fl server w r).Outcome = .notFound ∨
      (handler W fl server w r).Header "Cache-Control".toList
        = some ["no-store".toList]) ∧
    (∀ i url host,
      (routeOf W fl server r.URL.Path = some (.critical i) ∨
        routeOf W fl server r.URL.Path = some (.remote i)) →
      (handler W fl server w r).Outcome = .forwarded url host →
      ((handler W fl server w r).Header "Cache-Control".toList).getD []
        = (W.roundTrip url host "Cache-Control".toList).getD []) ∧
    (routeOf W fl server r.URL.Path = some .catchAll →
      (handler W fl server w r).Header "Cache-Control".toList = none) := by
  obtain ⟨r', hpath, hr'⟩ := handler_eq_router W fl server w r
  rw [hr']
  have hroute : routeOf W fl server r.URL.Path
      = (routerMatch (routes W fl server) r'.URL.Path).map (fun rt => rt.id) := by
    rw [hpath]
    rfl
  rw [hroute]
  have hcc : ("Cache-Control".toList : GoString) ≠ "Content-Type".toList := by decide
  have hproxy : ∀ (hive : Hive) (url : URL) (host : GoString),
      (correct_MIME_TYPE (proxyHandler W fl server hive) w r').Outcome
        = .forwarded url host →
      ((correct_MIME_TYPE (proxyHandler W fl server hive) w r').Header
        "Cache-Control".toList).getD [] = (W.roundTrip url host "Cache-Control".toList).getD [] := by
    intro hive url host hout
    obtain ⟨w1, hw1, hframe⟩ := correct_MIME_TYPE_frame (proxyHandler W fl server hive)
      w r'
    rw [hw1] at hout ⊢
    rw [proxyHandler_forwarded W fl server hive w1 r' url host hout]
    have hw1cc : w1 "Cache-Control".toList = none := (hframe _ hcc).trans hfresh
    rw [copyHeader_getD _ _ _ hw1cc, hcache]
    rfl
  unfold router
  rcases routerMatch_cases W fl server r'.URL.Path with
    ⟨i, h, _, _, _, hm⟩ | ⟨_, ⟨i, h, _, _, _, hm⟩ | ⟨_, ⟨i, h, _, _, _, hm⟩ | ⟨_, hm⟩⟩⟩
  · rw [hm]
    refine ⟨?_, ?_, ?_⟩
    · intro k hk
      simp [criticalRoute] at hk
    · intro k url host _ hout
      exact hproxy h url host hout
    · intro hk
      simp [criticalRoute] at hk
  · rw [hm]
    refine ⟨?_, ?_, ?_⟩
    · intro k _
      obtain ⟨w1, hw1, hframe⟩ := correct_MIME_TYPE_frame (localHandler W fl h) w r'
      have hw1cc : w1 "Cache-Control".toList = none := (hframe _ hcc).trans hfresh
      show (correct_MIME_TYPE (localHandler W fl h) w r').Outcome = .notFound ∨
        (correct_MIME_TYPE (localHandler W fl h) w r').Header "Cache-Control".toList
          = some ["no-store".toList]
      rw [hw1]
      rcases localHandler_cache_control W fl h w1 r' hcache hgzip with hnf | hh
      · exact Or.inl hnf
      · right
        rw [hh, hw1cc]
        rfl
    · intro k url host hk
      simp [localRoute] at hk
    · intro hk
      simp [localRoute] at hk
  · rw [hm]
    refine ⟨?_, ?_, ?_⟩
    · intro k hk
      simp [remoteRoute] at hk
    · intro k url host _ hout
      exact hproxy h url host hout
    · intro hk
      simp [remoteRoute] at hk
  · rw [hm]
    by_cases hca : catchAllMatch r'.URL.Path = true
    · rw [if_pos hca]
      refine ⟨?_, ?_, ?_⟩
      · intro k hk
        simp at hk
      · intro k url host hk
        simp at hk
      · intro _
        obtain ⟨w1, hw1, hframe⟩ := correct_MIME_TYPE_frame (serveBase W fl) w r'
        show (correct_MIME_TYPE (serveBase W fl) w r').Header "Cache-Control".toList
          = none
        rw [hw1]
        exact hfile _ _ _ ((hframe _ hcc).trans hfresh)
    · rw [if_neg hca]
      refine ⟨?_, ?_, ?_⟩
      · intro k hk
        simp at hk
      · intro k url host hk
        simp at hk
      · intro hk
        simp at hk

/-- C4, amended, at a request served by a local hive: the response carries
`Cache-Control: no-store`. -/
theorem no_store_on_local_routes_only_witness :
    (handler plainWorld defaultFlags staticServer Header.empty
        { Method := "GET".toList, RequestURI := "/assets/logo.png".toList,
          URL := { Path := "/assets/logo.png".toList }, Host := [], Header := Header.empty }).Outcome
      = .notFound ∨
    (handler plainWorld defaultFlags staticServer Header.empty
        { Method := "GET".toList, RequestURI := "/assets/logo.png".toList,
          URL := { Path := "/assets/logo.png".toList }, Host := [], Header := Header.empty }).Header
        "Cache-Control".toList = some ["no-store".toList] :=
  (no_store_on_local_routes_only plainWorld defaultFlags staticServer Header.empty
      { Method := "GET".toList, RequestURI := "/assets/logo.png".toList,
        URL := { Path := "/assets/logo.png".toList }, Host := [], Header := Header.empty }
      rfl rfl (fun _ _ _ => rfl) (fun _ _ _ h => h)).1 0 (by decide)

/-- C5 as stated fails: a handler that writes its own `Content-Type` after
the middleware ran keeps it. The 404 reply to `/app.js` leaves the
middleware as `text/plain; charset=utf-8`, and a proxied `/v1/app.js` whose
upstream sends `text/plain` carries both values. -/
theorem handler_content_type_survives :
    ".js".toList <:+: "/app.js".toList ∧
    (getRequest "/app.js".toList).map
        (fun r => (correct_MIME_TYPE NotFound Header.empty r).Header "Content-Type".toList)
      = some (some ["text/plain; charset=utf-8".toList]) ∧
    (getRequest "/v1/app.js".toList).map
        (fun r => (handler textUpstreamWorld defaultFlags apiServer Header.empty r).Header
          "Content-Type".toList)
      = some (some ["application/javascript;charset=utf-8".toList, "text/plain".toList]) := by
  refine ⟨by decide, by decide, by decide⟩

/-- C5, amended: for a request whose path begins with `/` and contains `.js`
at any position, `correct_MIME_TYPE` replaces whatever `Content-Type` was set
before by `application/javascript;charset=utf-8` and then runs the wrapped
handler; the response has exactly that `Content-Type` whenever the wrapped
handler leaves the `Content-Type` entry as it finds it. -/
theorem js_content_type_preset (next : Handler) (w : Header) (r : Request)
    (hroot : r.URL.Path.head? = some '/') (hjs : ".js".toList <:+: r.URL.Path) :
    correct_MIME_TYPE next w r
      = next (w.Set "Content-Type".toList "application/javascript;charset=utf-8".toList) r ∧
    ((∀ w' r', (next w' r').Header "Content-Type".toList = w' "Content-Type".toList) →
      (correct_MIME_TYPE next w r).Header "Content-Type".toList
        = some ["application/javascript;charset=utf-8".toList]) := by
  have h := correct_MIME_TYPE_of_pos next w r (Index_js_pos _ hroot hjs)
  refine ⟨h, ?_⟩
  intro hkeep
  rw [h, hkeep]
  simp [Header.Set]

/-- C5, amended, at `/lib/app.js.map` with a handler that writes nothing. -/
theorem js_content_type_preset_witness :
    (correct_MIME_TYPE (fun w _ => { Header := w, Outcome := .file [] })
        (Header.empty.Set "Content-Type".toList "text/html".toList)
        { Method := "GET".toList, RequestURI := "/lib/app.js.map".toList,
          URL := { Path := "/lib/app.js.map".toList }, Host := [],
          Header := Header.empty }).Header "Content-Type".toList
      = some ["application/javascript;charset=utf-8".toList] :=
  (js_content_type_preset (fun w _ => { Header := w, Outcome := .file [] })
      (Header.empty.Set "Content-Type".toList "text/html".toList)
      { Method := "GET".toList, RequestURI := "/lib/app.js.map".toList,
        URL := { Path := "/lib/app.js.map".toList }, Host := [], Header := Header.empty }
      rfl ⟨"/lib/app".toList, ".map".toList, by decide⟩).2 (fun _ _ => rfl)

end GoServer
